import Mathlib

/-!
Shallow embedding of the diff-parsing core of the Phabricator-Review tool
(`src/main/diff_parser.py`, with its color constants from
`src/main/constants.py`).

Python strings are modelled as Lean `String`; the handful of Python string
builtins the module uses (`str.splitlines`, `str.strip`, `str.split`,
slicing, `int(...)`) are re-implemented below over `List Char` so that every
definition evaluates by kernel reduction.  Python integers are `Int`
(the counters and line numbers of the module never overflow anything).
-/

namespace DiffParser

/-- Value of a list of decimal digit characters, most significant first. -/
def digitsToNat (ds : List Char) : Nat :=
  ds.foldl (fun a c => a * 10 + (c.toNat - 48)) 0

/-- Python `int(s)` as used here: optional surrounding whitespace, an optional
single sign, then one or more decimal digits.  (Underscore separators and
non-ASCII digits, which Python's `int` also accepts, are not modelled; no
claim involves them.)  Returns `none` where Python raises `ValueError`. -/
def pyParseInt (s : String) : Option Int :=
  let cs := (s.toList.dropWhile Char.isWhitespace).reverse
  let cs := (cs.dropWhile Char.isWhitespace).reverse
  match cs with
  | '-' :: ds =>
      if ds ≠ [] ∧ ds.all Char.isDigit then some (-(digitsToNat ds : Int)) else none
  | '+' :: ds =>
      if ds ≠ [] ∧ ds.all Char.isDigit then some ((digitsToNat ds : Int)) else none
  | ds =>
      if ds ≠ [] ∧ ds.all Char.isDigit then some ((digitsToNat ds : Int)) else none

/-- Split a character list at every occurrence of the separator character,
keeping empty segments — the behaviour of Python's `str.split(sep)` for a
one-character separator. -/
def splitOnChar (sep : Char) : List Char → List (List Char)
  | [] => [[]]
  | c :: cs =>
      let rest := splitOnChar sep cs
      if c = sep then [] :: rest
      else
        match rest with
        | [] => [[c]]
        | r :: rs => (c :: r) :: rs

/-- Python `str.split(sep)` for a one-character separator, over `String`. -/
def pySplit (s : String) (sep : Char) : List String :=
  (splitOnChar sep s.toList).map List.asString

/-- Python `str.splitlines()` restricted to `\n` separators (the raw diffs
of every claim use `\n` only): split on `\n`, and a trailing newline does not
produce a trailing empty line. -/
def pySplitLines (s : String) : List String :=
  match s.toList with
  | [] => []
  | cs =>
      let parts := splitOnChar '\n' cs
      let parts := if cs.getLast? = some '\n' then parts.dropLast else parts
      parts.map List.asString

/-- Python `str.strip()`: drop leading and trailing whitespace
(ASCII whitespace suffices for the ASCII diffs modelled here). -/
def pyStrip (s : String) : String :=
  (((s.toList.dropWhile Char.isWhitespace).reverse.dropWhile
      Char.isWhitespace).reverse).asString

/-- Python `line[0] if line else " "`. -/
def pyFirstChar (s : String) : Char :=
  match s.toList with
  | [] => ' '
  | c :: _ => c

/-- Python `s[1:]`. -/
def pyDropOne (s : String) : String :=
  (s.toList.drop 1).asString

/-- Python `len(s)`. -/
def pyLen (s : String) : Nat := s.toList.length

/-- Python `"\n".join(lines)`. -/
def joinWithNewline : List String → String
  | [] => ""
  | [x] => x
  | x :: xs => x ++ "\n" ++ joinWithNewline xs

/-! Color constants from `src/main/constants.py`. -/

def COLOR_TITLE : String := "\x1b[96m"
def COLOR_ADD : String := "\x1b[32m"
def COLOR_REMOVE : String := "\x1b[31m"
def COLOR_NOTICE : String := "\x1b[93m"
def COLOR_RESET : String := "\x1b[0m"

/-- `colorize` from `diff_parser.py`: wrap text in an ANSI color escape. -/
def colorize (text : String) (color : String) : String :=
  color ++ text ++ COLOR_RESET

/-- `ChangeEntry` dataclass: a single added or removed line of a diff.
`change_type` is the string `"add"` or `"remove"`, as in the source. -/
structure ChangeEntry where
  path : String
  line : Int
  change_type : String
  content : String
deriving DecidableEq

/-- `GroupedChange` dataclass: a run of consecutive same-type changes. -/
structure GroupedChange where
  start_line : Int
  end_line : Int
  change_type : String
  content : List String
deriving DecidableEq

/-- The loop of `group_entries`: `current` is the open group, the list is the
remaining entries; the final open group is always appended. -/
def groupGo (current : GroupedChange) : List ChangeEntry → List GroupedChange
  | [] => [current]
  | e :: rest =>
      if e.change_type = current.change_type ∧ e.line = current.end_line + 1 then
        groupGo { current with
                    end_line := e.line,
                    content := current.content ++ [e.content] } rest
      else
        current :: groupGo ⟨e.line, e.line, e.change_type, [e.content]⟩ rest

/-- `group_entries` from `diff_parser.py`: group consecutive entries of the
same type whose line numbers increase by exactly one. -/
def group_entries : List ChangeEntry → List GroupedChange
  | [] => []
  | e :: rest => groupGo ⟨e.line, e.line, e.change_type, [e.content]⟩ rest

/-- Split a character list at the last occurrence of the infix `" b/"` whose
suffix is nonempty, returning (prefix, suffix).  This is how the greedy group
`(.+)` of the header regex `^diff --git a/(.+) b/(.+)$` resolves: the first
group takes as much as it can, so the separator is the last occurrence of
`" b/"` that still leaves a nonempty second group.  The nonemptiness of the
first group is checked by the caller. -/
def lastBSplit : List Char → Option (List Char × List Char)
  | [] => none
  | c :: cs =>
      match lastBSplit cs with
      | some (p, s) => some (c :: p, s)
      | none =>
          match c, cs with
          | ' ', 'b' :: '/' :: r => if r = [] then none else some ([], r)
          | _, _ => none

/-- The file-header regex `^diff --git a/(.+) b/(.+)$` of `diff_parser.py`
(`re.match` with `$`: the whole line must match; `.` cannot match a newline
but split lines contain none).  Returns the two groups on success. -/
def matchDiffHeader (line : String) : Option (String × String) :=
  let cs := line.toList
  if cs.take 13 = ("diff --git a/").toList then
    match lastBSplit (cs.drop 13) with
    | some (p, s) => if p = [] then none else some (p.asString, s.asString)
    | none => none
  else none

/-- Consume a maximal nonempty run of decimal digits from the front,
returning its value and the remainder (the regex fragment `(\d+)`). -/
def readNat (cs : List Char) : Option (Nat × List Char) :=
  match cs.span Char.isDigit with
  | (ds, rest) => if ds = [] then none else some (digitsToNat ds, rest)

/-- The optional count of a hunk header, regex fragment `(?:,\d+)?`: consume
a comma followed by digits when present, otherwise consume nothing. -/
def skipCount (cs : List Char) : List Char :=
  match cs with
  | ',' :: rest =>
      match readNat rest with
      | some (_, r) => r
      | none => cs
  | _ => cs

/-- The hunk-header regex `^@@ -(\d+)(?:,\d+)? \+(\d+)(?:,\d+)? @@` of
`diff_parser.py` (`re.match` without `$`: a prefix match, trailing text after
the closing `@@` is allowed).  Returns the old and new start offsets. -/
def matchHunkHeader (line : String) : Option (Nat × Nat) :=
  match line.toList with
  | '@' :: '@' :: ' ' :: '-' :: rest =>
      match readNat rest with
      | none => none
      | some (o, r1) =>
          match skipCount r1 with
          | ' ' :: '+' :: r3 =>
              match readNat r3 with
              | none => none
              | some (n, r4) =>
                  match skipCount r4 with
                  | ' ' :: '@' :: '@' :: _ => some (o, n)
                  | _ => none
          | _ => none
  | _ => none

/-- The literal no-newline marker skipped by the parser. -/
def noNewlineMarker : String := "\\ No newline at end of file"

/-- The mutable state of the `summarize_diff` loop.  Python keeps a dict
`summaries` plus an insertion-order list `order`; both are modelled by one
association list in insertion order. -/
structure ParseState where
  summaries : List (String × List ChangeEntry)
  current_path : Option String
  old_line : Int
  new_line : Int
  results : List ChangeEntry
deriving DecidableEq

def initParseState : ParseState := ⟨[], none, 0, 0, []⟩

/-- Register a path in the summaries map if absent (Python's
`if path not in summaries: summaries[path] = []; order.append(path)`). -/
def summariesAdd (ss : List (String × List ChangeEntry)) (path : String) :
    List (String × List ChangeEntry) :=
  if ss.any (fun kv => kv.1 = path) then ss else ss ++ [(path, [])]

/-- Append an entry to a path's bucket (Python's
`summaries[current_path].append(entry)`). -/
def summariesAppend (ss : List (String × List ChangeEntry)) (path : String)
    (e : ChangeEntry) : List (String × List ChangeEntry) :=
  ss.map (fun kv => if kv.1 = path then (kv.1, kv.2 ++ [e]) else kv)

/-- The content of an emitted entry: `line[1:].strip() or "(empty)"`. -/
def entryContent (line : String) : String :=
  if pyStrip (pyDropOne line) = "" then "(empty)" else pyStrip (pyDropOne line)

/-- One iteration of the `summarize_diff` loop over a single input line.
Python's local variables (`path`, `prefix = line[0] if line else " "`, and
the built `entry`) are inlined. -/
def parseStep (st : ParseState) (line : String) : ParseState :=
  match matchDiffHeader line with
  | some (g1, g2) =>
      { st with
          summaries := summariesAdd st.summaries (if g2 = "/dev/null" then g1 else g2),
          current_path := some (if g2 = "/dev/null" then g1 else g2),
          old_line := 0,
          new_line := 0 }
  | none =>
      match st.current_path with
      | none => st
      | some cp =>
          match matchHunkHeader line with
          | some (o, n) => { st with old_line := (o : Int), new_line := (n : Int) }
          | none =>
              if line = "" ∨ line = noNewlineMarker then st
              else if pyFirstChar line = ' ' then
                { st with
                    old_line := if 0 < st.old_line then st.old_line + 1 else st.old_line,
                    new_line := if 0 < st.new_line then st.new_line + 1 else st.new_line }
              else if pyFirstChar line = '-' then
                if st.old_line = 0 then st
                else
                  { st with
                      summaries := summariesAppend st.summaries cp
                        ⟨cp, st.old_line, "remove", entryContent line⟩,
                      results := st.results ++ [⟨cp, st.old_line, "remove", entryContent line⟩],
                      old_line := st.old_line + 1 }
              else if pyFirstChar line = '+' then
                if st.new_line = 0 then st
                else
                  { st with
                      summaries := summariesAppend st.summaries cp
                        ⟨cp, st.new_line, "add", entryContent line⟩,
                      results := st.results ++ [⟨cp, st.new_line, "add", entryContent line⟩],
                      new_line := st.new_line + 1 }
              else st

/-- Run the `summarize_diff` loop over a list of input lines. -/
def parseRun (st : ParseState) (lines : List String) : ParseState :=
  lines.foldl parseStep st

/-- The label of a group in the formatted summary. -/
def groupLineLabel (grp : GroupedChange) : String :=
  if grp.start_line = grp.end_line then "line " ++ toString grp.start_line
  else "lines " ++ toString grp.start_line ++ "-" ++ toString grp.end_line

/-- The summary lines of one group: the action/label header plus one indented
line per content string. -/
def groupSummaryLines (grp : GroupedChange) : List String :=
  let ac := if grp.change_type = "remove" then (COLOR_REMOVE, "Removed")
            else (COLOR_ADD, "Added")
  ("  - " ++ colorize ac.2 ac.1 ++ " " ++ colorize (groupLineLabel grp) COLOR_NOTICE
      ++ ":")
    :: grp.content.map (fun c => "      " ++ c)

/-- The formatted summary built at the end of `summarize_diff`: for each file
in discovery order that has entries, a colorized path header then the grouped
change lines. -/
def buildSummary (ss : List (String × List ChangeEntry)) : String :=
  joinWithNewline
    (ss.flatMap (fun kv =>
      if kv.2 = [] then []
      else colorize kv.1 COLOR_TITLE ::
        (group_entries kv.2).flatMap groupSummaryLines))

/-- `summarize_diff` from `diff_parser.py`: parse a unified diff, returning
the flat entry list and the formatted summary string. -/
def summarize_diff (raw : String) : List ChangeEntry × String :=
  let st := parseRun initParseState (pySplitLines raw)
  (st.results, buildSummary st.summaries)

/-- Parse the line reference of `extract_code_snippet`: if the string contains
a `-`, split on `-` and convert the first two fields with `int(...)` (Python's
`split` yields at least two fields here, so no `IndexError` arises and any
further fields are ignored); otherwise convert the whole string.  `none`
models the `return None` of the two `except` arms.  An integer argument
passes through Python's `str(...)` first, so the model takes a string. -/
def parseLineRef (ref : String) : Option (Int × Int) :=
  if ref.toList.contains '-' then
    let parts := pySplit ref '-'
    match pyParseInt ((parts.get? 0).getD ""), pyParseInt ((parts.get? 1).getD "") with
    | some a, some b => some (a, b)
    | _, _ => none
  else
    match pyParseInt ref with
    | some n => some (n, n)
    | none => none

/-- One recorded snippet line, Python's
`f"{marker} {current_new_line}: {content}"` with
`marker = ">" if start_line <= current_new_line <= end_line else " "`. -/
def snippetLine (s e n : Int) (content : String) : String :=
  (if s ≤ n ∧ n ≤ e then (">") else (" ")) ++ " " ++ toString n ++ ": " ++ content

/-- The mutable state of the `extract_code_snippet` loop. -/
structure ExtractState where
  in_target_file : Bool
  current_new_line : Int
  collected : List (Int × String)
deriving DecidableEq

def initExtractState : ExtractState := ⟨false, 0, []⟩

/-- One iteration of the `extract_code_snippet` loop over a single input
line, for target path `fp`, requested range `[s, e]` and context width
`ctx`. -/
def extractStep (fp : String) (s e ctx : Int) (st : ExtractState)
    (line : String) : ExtractState :=
  match matchDiffHeader line with
  | some (g1, g2) =>
      { st with in_target_file := (if g2 = "/dev/null" then g1 else g2) == fp }
  | none =>
      if st.in_target_file then
        match matchHunkHeader line with
        | some (_, n) => { st with current_new_line := (n : Int) }
        | none =>
            if line = "" then st
            else if pyFirstChar line = '-' then st
            else if pyFirstChar line = ' ' ∨ pyFirstChar line = '+' then
              if 0 < st.current_new_line then
                if s - ctx ≤ st.current_new_line ∧ st.current_new_line ≤ e + ctx then
                  { st with
                      collected := st.collected ++
                        [(st.current_new_line,
                          snippetLine s e st.current_new_line
                            (if 1 < pyLen line then pyDropOne line else ""))],
                      current_new_line := st.current_new_line + 1 }
                else { st with current_new_line := st.current_new_line + 1 }
              else st
            else st
      else st

/-- Run the `extract_code_snippet` loop over a list of input lines from the
initial state. -/
def extractScan (lines : List String) (fp : String) (s e ctx : Int) :
    ExtractState :=
  lines.foldl (extractStep fp s e ctx) initExtractState

/-- The scan and output phase of `extract_code_snippet`, after the line
reference has been parsed into the inclusive range `[s, e]`. -/
def extractWithBounds (lines : List String) (fp : String) (s e ctx : Int) :
    Option String :=
  let st := extractScan lines fp s e ctx
  if st.collected = [] then none
  else some (joinWithNewline (st.collected.map Prod.snd))

/-- `extract_code_snippet` from `diff_parser.py`: extract the post-image code
around a line or line range of a file from a raw diff, or `none`. -/
def extract_code_snippet (raw_diff file_path : String) (line_ref : String)
    (context_lines : Int) : Option String :=
  match parseLineRef line_ref with
  | none => none
  | some (s, e) =>
      extractWithBounds (pySplitLines raw_diff) file_path s e context_lines

/-- Property of an input against the extractor scan: every hunk header inside
the target file's sections starts the new-line counter at or above the value
the counter already reached.  Well-formed single-pass diffs (one section per
file, hunks in ascending order) satisfy it; overlapping or repeated sections
need not.  The per-line check: a hunk header of the target section must not
restart the counter below its current value. -/
def hunkStepOK (st : ExtractState) (l : String) : Bool :=
  match matchDiffHeader l with
  | some _ => true
  | none =>
      if st.in_target_file then
        match matchHunkHeader l with
        | some (_, n) => decide (st.current_new_line ≤ (n : Int))
        | none => true
      else true

/-- The per-line check of `hunkStepOK`, folded over a whole scan. -/
def hunkStartsMonotone (fp : String) (s e ctx : Int) :
    ExtractState → List String → Bool
  | _, [] => true
  | st, l :: ls =>
      hunkStepOK st l &&
        hunkStartsMonotone fp s e ctx (extractStep fp s e ctx st l) ls

/-! Concrete inputs used to instantiate or refute the claims below. -/

/-- The worked example diff of the spec (one file, one hunk, one removal and
one addition). -/
def exSimple : String :=
  "diff --git a/foo.py b/foo.py\n@@ -1,3 +1,3 @@\n a\n-b\n+c\n d"

/-- A diff whose target file has post-image lines 1 through 5, all context. -/
def exWindow : String :=
  "diff --git a/foo.py b/foo.py\n@@ -1,5 +1,5 @@\n a\n b\n c\n d\n e"

/-- A diff with two sections for the same file whose second hunk restarts the
new-line counter below the first. -/
def exOverlap : String :=
  "diff --git a/foo.py b/foo.py\n@@ -5 +5 @@\n x\ndiff --git a/foo.py b/foo.py\n@@ -1 +1 @@\n y"

/-- A diff containing a line whose first character is `x` between a hunk
header and an addition. -/
def exJunk : String :=
  "diff --git a/foo.py b/foo.py\n@@ -1,2 +1,2 @@\nxjunk\n+c"

/-- A parser state mid-file with both counters at 1. -/
def exJunkState : ParseState :=
  ⟨[("foo.py", [])], some "foo.py", 1, 1, []⟩

/-- A diff whose hunk header has old start offset 0 (a pure addition). -/
def exZeroHunk : String := "diff --git a/f b/f\n@@ -0,0 +1 @@\n+x"

/-- A deletion file header: the post-image path is the null device. -/
def exDevNullLine : String := "diff --git a/foo.py b//dev/null"

/-- Two consecutive additions on lines 1 and 2 of one file. -/
def exEntries : List ChangeEntry :=
  [⟨"f", 1, "add", "a"⟩, ⟨"f", 2, "add", "b"⟩]

/-- The single group produced for `exEntries`. -/
def exGroup : GroupedChange := ⟨1, 2, "add", ["a", "b"]⟩

/-! Theorems. -/

/-- Concatenating the groups' contents restores the entries' contents:
the statement of the grouping loop, generalized over the open group. -/
theorem groupGo_join (rest : List ChangeEntry) :
    ∀ cur : GroupedChange,
      ((groupGo cur rest).map GroupedChange.content).flatten =
        cur.content ++ rest.map ChangeEntry.content := by
  induction rest with
  | nil => intro cur; simp [groupGo]
  | cons e rest ih =>
      intro cur
      by_cases h : e.change_type = cur.change_type ∧ e.line = cur.end_line + 1
      · simp only [groupGo, if_pos h, ih]
        simp
      · simp only [groupGo, if_neg h]
        simp [ih]

/-- C3: for every list of `ChangeEntry` records, concatenating the content
sequences of the groups returned by `group_entries`, in group order, yields
exactly the sequence of the entries' content strings in original order. -/
theorem c3_grouping_lossless (entries : List ChangeEntry) :
    ((group_entries entries).map GroupedChange.content).flatten =
      entries.map ChangeEntry.content := by
  cases entries with
  | nil => simp [group_entries]
  | cons e rest => simp [group_entries, groupGo_join]

/-- Every group emitted by the grouping loop spans exactly as many lines as
it has content strings, provided the open group does. -/
theorem groupGo_span (rest : List ChangeEntry) :
    ∀ cur : GroupedChange,
      cur.end_line - cur.start_line + 1 = (cur.content.length : Int) →
      ∀ g ∈ groupGo cur rest,
        g.end_line - g.start_line + 1 = (g.content.length : Int) := by
  induction rest with
  | nil =>
      intro cur hcur g hg
      simp only [groupGo, List.mem_singleton] at hg
      simpa [hg] using hcur
  | cons e rest ih =>
      intro cur hcur g hg
      by_cases h : e.change_type = cur.change_type ∧ e.line = cur.end_line + 1
      · simp only [groupGo, if_pos h] at hg
        refine ih _ ?_ g hg
        simp only [List.length_append, List.length_singleton]
        push_cast
        omega
      · simp only [groupGo, if_neg h, List.mem_cons] at hg
        rcases hg with rfl | hg
        · exact hcur
        · refine ih _ ?_ g hg
          simp

/-- C4: every `GroupedChange` returned by `group_entries` satisfies
`end_line - start_line + 1 = length content`. -/
theorem c4_group_span_length (entries : List ChangeEntry)
    (g : GroupedChange) (hg : g ∈ group_entries entries) :
    g.end_line - g.start_line + 1 = (g.content.length : Int) := by
  cases entries with
  | nil => simp [group_entries] at hg
  | cons e rest =>
      refine groupGo_span rest _ ?_ g hg
      simp

/-- Witness for C4 at a concrete entry list: `exEntries` yields the single
group `exGroup`, which spans 2 lines and holds 2 content strings. -/
theorem c4_group_span_length_witness :
    exGroup.end_line - exGroup.start_line + 1 = (exGroup.content.length : Int) :=
  c4_group_span_length exEntries exGroup (by decide)

/-- C5: on the spec's worked example, `summarize_diff` returns exactly the
removal of `b` at old line 2 and the addition of `c` at new line 2, and
`extract_code_snippet` for line 2 with one context line returns the
three-line block over new lines 1–3 with only line 2 marked `>`. -/
theorem c5_concrete_example :
    (summarize_diff exSimple).1 =
      [⟨"foo.py", 2, "remove", "b"⟩, ⟨"foo.py", 2, "add", "c"⟩] ∧
    extract_code_snippet exSimple "foo.py" "2" 1 =
      some ("  1: a\n> 2: c\n  3: d") := by
  exact ⟨rfl, rfl⟩

/-- C6 (amended): whatever the raw diff, file path and context width,
`extract_code_snippet` returns `none` whenever the line reference fails to
parse — where a reference containing `-` parses when its first two
`-`-separated fields are integers (further fields are ignored), and one
without `-` must be a single integer. -/
theorem c6_parse_failure_none (raw fp ref : String) (ctx : Int)
    (h : parseLineRef ref = none) :
    extract_code_snippet raw fp ref ctx = none := by
  simp [extract_code_snippet, h]

/-- Witness for C6 at a reference that is not a number at all. -/
theorem c6_parse_failure_none_witness :
    extract_code_snippet "" "f" "abc" 1 = none :=
  c6_parse_failure_none "" "f" "abc" 1 rfl

/-- Counterexample to C6 as stated: the reference `"1-2-3"` is neither an
integer literal nor exactly two integers joined by one `-`, yet the call
returns a snippet (the third and later `-`-fields are silently ignored, so
the reference behaves like `"1-2"`). -/
theorem c6_counterexample :
    extract_code_snippet exWindow "foo.py" "1-2-3" 1 =
        some ("> 1: a\n> 2: b\n  3: c") ∧
      extract_code_snippet exWindow "foo.py" "1-2-3" 1 ≠ none := by
  refine ⟨rfl, ?_⟩
  decide

/-- C2 (amended): after the first file header, a line that is no header, not
empty and not the no-newline marker is treated as a context line only when
its first character is exactly a space (each nonzero counter is then
incremented); a line with any other first character besides `-` and `+`
leaves the parser state completely unchanged — the counters are not
advanced and no entry is produced. -/
theorem c2_nonmarker_line (st : ParseState) (line cp : String)
    (hcp : st.current_path = some cp)
    (hd : matchDiffHeader line = none) (hh : matchHunkHeader line = none)
    (he : line ≠ "") (hm : line ≠ noNewlineMarker) :
    (pyFirstChar line = ' ' →
      parseStep st line =
        { st with
            old_line := if 0 < st.old_line then st.old_line + 1 else st.old_line,
            new_line := if 0 < st.new_line then st.new_line + 1 else st.new_line }) ∧
    (pyFirstChar line ≠ ' ' → pyFirstChar line ≠ '-' → pyFirstChar line ≠ '+' →
      parseStep st line = st) := by
  constructor
  · intro hsp
    simp [parseStep, hd, hcp, hh, he, hm, hsp]
  · intro h1 h2 h3
    simp [parseStep, hd, hcp, hh, he, hm, h1, h2, h3]

/-- Witness for C2 at the junk line `"xjunk"` and a mid-file state. -/
theorem c2_nonmarker_line_witness :
    (pyFirstChar "xjunk" = ' ' →
      parseStep exJunkState "xjunk" =
        { exJunkState with
            old_line :=
              if 0 < exJunkState.old_line then exJunkState.old_line + 1
              else exJunkState.old_line,
            new_line :=
              if 0 < exJunkState.new_line then exJunkState.new_line + 1
              else exJunkState.new_line }) ∧
    (pyFirstChar "xjunk" ≠ ' ' → pyFirstChar "xjunk" ≠ '-' →
      pyFirstChar "xjunk" ≠ '+' → parseStep exJunkState "xjunk" = exJunkState) :=
  c2_nonmarker_line exJunkState "xjunk" "foo.py" rfl rfl rfl
    (by decide) (by decide)

/-- Counterexample to C2 as stated: on a line starting with `x` the claim
predicts both nonzero counters advance (to 2 in this state); in fact the
state is untouched, and end to end the addition that follows such a junk
line is numbered 1, not 2. -/
theorem c2_counterexample :
    parseStep exJunkState "xjunk" = exJunkState ∧
      (parseStep exJunkState "xjunk").old_line ≠ 2 ∧
      (parseStep exJunkState "xjunk").new_line ≠ 2 ∧
      (summarize_diff exJunk).1 = [⟨"foo.py", 1, "add", "c"⟩] := by
  refine ⟨rfl, by decide, by decide, rfl⟩

/-- C10: between headers, the extractor advances its new-file line counter
only on lines whose first character is a space or `+`; an empty line, and a
line with any other first character except `-`, leaves the whole state
(counter and recorded lines) unchanged, and a `-` line also leaves it
unchanged. -/
theorem c10_counter_advance (fp : String) (s e ctx : Int)
    (st : ExtractState) (line : String)
    (hd : matchDiffHeader line = none) (hh : matchHunkHeader line = none) :
    ((extractStep fp s e ctx st line).current_new_line ≠ st.current_new_line →
      line ≠ "" ∧ (pyFirstChar line = ' ' ∨ pyFirstChar line = '+')) ∧
    ((line = "" ∨ (pyFirstChar line ≠ ' ' ∧ pyFirstChar line ≠ '+')) →
      extractStep fp s e ctx st line = st) := by
  cases htgt : st.in_target_file with
  | false =>
      constructor
      · intro hne
        exact absurd (by simp [extractStep, hd, htgt]) hne
      · intro _
        simp [extractStep, hd, htgt]
  | true =>
      by_cases hemp : line = ""
      · subst hemp
        constructor
        · intro hne
          exact absurd (by simp [extractStep, hd, hh, htgt]) hne
        · intro _
          simp [extractStep, hd, hh, htgt]
      · by_cases hpm : pyFirstChar line = ' ' ∨ pyFirstChar line = '+'
        · refine ⟨fun _ => ⟨hemp, hpm⟩, ?_⟩
          rintro (h | h)
          · exact absurd h hemp
          · rcases hpm with hp | hp
            · exact absurd hp h.1
            · exact absurd hp h.2
        · have hstep : extractStep fp s e ctx st line = st := by
            by_cases hmin : pyFirstChar line = '-'
            · simp [extractStep, hd, hh, htgt, hemp, hmin]
            · simp [extractStep, hd, hh, htgt, hemp, hmin, hpm]
          refine ⟨fun hne => absurd (by rw [hstep]) hne, fun _ => hstep⟩

/-- Witness for C10 at a junk line in a mid-hunk state. -/
theorem c10_counter_advance_witness :
    ((extractStep "f" 1 1 1 ⟨true, 3, []⟩ "xjunk").current_new_line ≠
        (⟨true, 3, []⟩ : ExtractState).current_new_line →
      "xjunk" ≠ "" ∧ (pyFirstChar "xjunk" = ' ' ∨ pyFirstChar "xjunk" = '+')) ∧
    (("xjunk" = "" ∨ (pyFirstChar "xjunk" ≠ ' ' ∧ pyFirstChar "xjunk" ≠ '+')) →
      extractStep "f" 1 1 1 ⟨true, 3, []⟩ "xjunk" = ⟨true, 3, []⟩) :=
  c10_counter_advance "f" 1 1 1 ⟨true, 3, []⟩ "xjunk" rfl rfl

/-- One parser step keeps both counters nonnegative and adds only entries
whose line number is positive. -/
theorem parseStep_counters (st : ParseState) (l : String)
    (h1 : 0 ≤ st.old_line) (h2 : 0 ≤ st.new_line)
    (h3 : ∀ a ∈ st.results, 1 ≤ a.line) :
    0 ≤ (parseStep st l).old_line ∧ 0 ≤ (parseStep st l).new_line ∧
      ∀ a ∈ (parseStep st l).results, 1 ≤ a.line := by
  unfold parseStep
  split
  · exact ⟨le_refl 0, le_refl 0, h3⟩
  · split
    · exact ⟨h1, h2, h3⟩
    · rename_i cp _
      split
      · rename_i o n _
        exact ⟨Int.natCast_nonneg o, Int.natCast_nonneg n, h3⟩
      · split
        · exact ⟨h1, h2, h3⟩
        · split
          · refine ⟨?_, ?_, h3⟩ <;> dsimp only <;> split <;> omega
          · split
            · split
              · exact ⟨h1, h2, h3⟩
              · rename_i hz
                refine ⟨by dsimp only; omega, h2, ?_⟩
                intro a ha
                rcases List.mem_append.mp ha with ha | ha
                · exact h3 a ha
                · rw [List.mem_singleton] at ha
                  subst ha
                  dsimp only
                  omega
            · split
              · split
                · exact ⟨h1, h2, h3⟩
                · rename_i hz
                  refine ⟨h1, by dsimp only; omega, ?_⟩
                  intro a ha
                  rcases List.mem_append.mp ha with ha | ha
                  · exact h3 a ha
                  · rw [List.mem_singleton] at ha
                    subst ha
                    dsimp only
                    omega
              · exact ⟨h1, h2, h3⟩

/-- Running the parser from a state with nonnegative counters and positive
entry lines keeps every emitted entry's line positive. -/
theorem parseRun_lines_pos (lines : List String) :
    ∀ st : ParseState, 0 ≤ st.old_line → 0 ≤ st.new_line →
      (∀ a ∈ st.results, 1 ≤ a.line) →
      ∀ a ∈ (parseRun st lines).results, 1 ≤ a.line := by
  induction lines with
  | nil => intro st _ _ h3; exact h3
  | cons l ls ih =>
      intro st h1 h2 h3
      obtain ⟨k1, k2, k3⟩ := parseStep_counters st l h1 h2 h3
      exact ih (parseStep st l) k1 k2 k3

/-- C9: every `ChangeEntry` returned by `summarize_diff`, on any input text
(including malformed diffs and hunk headers starting at offset 0), has a
positive line number. -/
theorem c9_lines_positive (raw : String) (a : ChangeEntry)
    (ha : a ∈ (summarize_diff raw).1) : 1 ≤ a.line := by
  have h := parseRun_lines_pos (pySplitLines raw) initParseState
    (by decide) (by decide) (by intro a ha; simp [initParseState] at ha)
  exact h a ha

/-- Witness for C9 on a diff whose hunk header has old start offset 0. -/
theorem c9_lines_positive_witness :
    1 ≤ (ChangeEntry.mk "f" 1 "add" "x").line :=
  c9_lines_positive exZeroHunk (ChangeEntry.mk "f" 1 "add" "x") (by decide)

/-- A parser step on a non-header line keeps the current path, and extends
the results at most by one entry carrying that path. -/
theorem parseStep_noheader (st : ParseState) (l : String)
    (hd : matchDiffHeader l = none) :
    (parseStep st l).current_path = st.current_path ∧
      ((parseStep st l).results = st.results ∨
        ∃ en : ChangeEntry, (parseStep st l).results = st.results ++ [en] ∧
          some en.path = st.current_path) := by
  cases hcp : st.current_path with
  | none =>
      simp only [parseStep, hd, hcp]
      exact ⟨trivial, Or.inl trivial⟩
  | some cp =>
      simp only [parseStep, hd, hcp]
      repeat' split
      all_goals first
        | exact ⟨hcp, Or.inl rfl⟩
        | exact ⟨rfl, Or.inl rfl⟩
        | exact ⟨rfl, Or.inr ⟨_, rfl, rfl⟩⟩

/-- Running the parser over header-free lines from a state whose current path
is `p` only adds entries carrying path `p`. -/
theorem parseRun_section_paths (lines : List String) :
    ∀ (st : ParseState) (p : String), st.current_path = some p →
      (∀ l ∈ lines, matchDiffHeader l = none) →
      ∀ a ∈ (parseRun st lines).results, a ∈ st.results ∨ a.path = p := by
  induction lines with
  | nil => intro st p _ _ a ha; exact Or.inl ha
  | cons l ls ih =>
      intro st p hp hfree a ha
      have hd : matchDiffHeader l = none := hfree l (List.mem_cons_self l ls)
      obtain ⟨hpath, hres⟩ := parseStep_noheader st l hd
      have hnext := ih (parseStep st l) p (hpath.trans hp)
        (fun x hx => hfree x (List.mem_cons_of_mem l hx)) a ha
      rcases hnext with hmem | hpa
      · rcases hres with heq | ⟨en, heq, hen⟩
        · rw [heq] at hmem
          exact Or.inl hmem
        · rw [heq] at hmem
          rcases List.mem_append.mp hmem with hmem | hmem
          · exact Or.inl hmem
          · right
            rw [List.mem_singleton] at hmem
            subst hmem
            rw [hp] at hen
            exact Option.some_injective _ hen
      · exact Or.inr hpa

/-- C8: a file header whose post-image path is `/dev/null` attributes its
section to the pre-image path: the parser's current path becomes the
pre-image path (so the entries of the header-free section that follows all
carry it), and the extractor enters the section exactly when the requested
path equals the pre-image path. -/
theorem c8_devnull_fallback (line old fp : String) (s e ctx : Int)
    (pst : ParseState) (est : ExtractState) (rest : List String)
    (h : matchDiffHeader line = some (old, "/dev/null"))
    (hrest : ∀ l ∈ rest, matchDiffHeader l = none) :
    (parseStep pst line).current_path = some old ∧
      (extractStep fp s e ctx est line).in_target_file = (old == fp) ∧
      ∀ a ∈ (parseRun (parseStep pst line) rest).results,
        a ∈ pst.results ∨ a.path = old := by
  have hstep : (parseStep pst line).current_path = some old ∧
      (parseStep pst line).results = pst.results := by
    unfold parseStep
    rw [h]
    exact ⟨by simp, rfl⟩
  refine ⟨hstep.1, ?_, ?_⟩
  · unfold extractStep
    rw [h]
    simp
  · intro a ha
    rcases parseRun_section_paths rest (parseStep pst line) old hstep.1 hrest a ha with
      hmem | hp
    · rw [hstep.2] at hmem
      exact Or.inl hmem
    · exact Or.inr hp

/-- Witness for C8 at the header `diff --git a/foo.py b//dev/null` followed
by a removal line. -/
theorem c8_devnull_fallback_witness :
    (parseStep initParseState exDevNullLine).current_path = some "foo.py" ∧
      (extractStep "foo.py" 1 1 1 initExtractState exDevNullLine).in_target_file =
        ("foo.py" == "foo.py") ∧
      ∀ a ∈ (parseRun (parseStep initParseState exDevNullLine) ["-x"]).results,
        a ∈ initParseState.results ∨ a.path = "foo.py" :=
  c8_devnull_fallback exDevNullLine "foo.py" "foo.py" 1 1 1 initParseState
    initExtractState ["-x"] rfl (by decide)

/-- One extractor step either keeps the recorded lines or appends one line
rendered by `snippetLine` at the current counter value. -/
theorem extractStep_collected_sub (fp : String) (s e ctx : Int)
    (st : ExtractState) (l : String) :
    ∀ p ∈ (extractStep fp s e ctx st l).collected,
      p ∈ st.collected ∨
        ∃ c : String,
          p = (st.current_new_line, snippetLine s e st.current_new_line c) := by
  unfold extractStep
  repeat' split
  all_goals intro p hp
  all_goals
    first
      | exact Or.inl hp
      | (rcases List.mem_append.mp hp with h | h
         · exact Or.inl h
         · exact Or.inr ⟨_, List.mem_singleton.mp h⟩)

/-- When the context window `[s - ctx, e + ctx]` is empty, an extractor step
never records a line. -/
theorem extractStep_collected_eq (fp : String) (s e ctx : Int)
    (st : ExtractState) (l : String) (hwin : e + 2 * ctx < s) :
    (extractStep fp s e ctx st l).collected = st.collected := by
  unfold extractStep
  repeat' split
  all_goals first
    | rfl
    | (exfalso; omega)

/-- Folding the extractor over any lines with an empty context window leaves
the recorded lines unchanged. -/
theorem extractFold_collected_eq (fp : String) (s e ctx : Int)
    (hwin : e + 2 * ctx < s) (lines : List String) :
    ∀ st : ExtractState,
      (lines.foldl (extractStep fp s e ctx) st).collected = st.collected := by
  induction lines with
  | nil => intro st; rfl
  | cons l ls ih =>
      intro st
      rw [List.foldl_cons, ih, extractStep_collected_eq fp s e ctx st l hwin]

/-- Any property that holds of every line `snippetLine` can render, and of
every already-recorded line, holds of every line recorded by a fold of the
extractor. -/
theorem extractFold_collected_sub (fp : String) (s e ctx : Int)
    (P : Int × String → Prop)
    (hP : ∀ (n : Int) (c : String), P (n, snippetLine s e n c))
    (lines : List String) :
    ∀ st : ExtractState, (∀ p ∈ st.collected, P p) →
      ∀ p ∈ (lines.foldl (extractStep fp s e ctx) st).collected, P p := by
  induction lines with
  | nil => intro st h; exact h
  | cons l ls ih =>
      intro st h
      rw [List.foldl_cons]
      refine ih (extractStep fp s e ctx st l) ?_
      intro p hp
      rcases extractStep_collected_sub fp s e ctx st l p hp with hmem | ⟨c, rfl⟩
      · exact h p hmem
      · exact hP st.current_new_line c

/-- C1 (amended): for a reversed range (`start > end`), the requested-range
marker `>` never appears — every recorded line is rendered with the space
marker — and the call returns `none` whenever additionally the context
window is empty, i.e. `start > end + 2·contextLines`.  (For `"5-3"` with the
default context width 1, the window `[4, 4]` is nonempty, so a context line
numbered 4 can still be returned, unmarked.) -/
theorem c1_reversed_range (raw fp ref : String) (ctx s e : Int)
    (hp : parseLineRef ref = some (s, e)) (hrev : e < s) :
    (∀ p ∈ (extractScan (pySplitLines raw) fp s e ctx).collected,
        ∃ c : String, p.2 = " " ++ " " ++ toString p.1 ++ ": " ++ c) ∧
    (e + 2 * ctx < s → extract_code_snippet raw fp ref ctx = none) := by
  constructor
  · unfold extractScan
    refine extractFold_collected_sub fp s e ctx _ ?_ (pySplitLines raw)
      initExtractState ?_
    · intro n c
      refine ⟨c, ?_⟩
      unfold snippetLine
      rw [if_neg]
      intro hcon
      omega
    · intro p hp
      simp [initExtractState] at hp
  · intro hwin
    have hcol : (extractScan (pySplitLines raw) fp s e ctx).collected = [] := by
      unfold extractScan
      rw [extractFold_collected_eq fp s e ctx hwin]
      rfl
    simp [extract_code_snippet, hp, extractWithBounds, hcol]

/-- Witness for C1 at the reversed range `"9-3"`, whose context window is
empty at width 1, so the extraction returns `none`. -/
theorem c1_reversed_range_witness :
    (∀ p ∈ (extractScan (pySplitLines exWindow) "foo.py" 9 3 1).collected,
        ∃ c : String, p.2 = " " ++ " " ++ toString p.1 ++ ": " ++ c) ∧
    ((3 : Int) + 2 * 1 < 9 → extract_code_snippet exWindow "foo.py" "9-3" 1 = none) :=
  c1_reversed_range exWindow "foo.py" "9-3" 1 9 3 rfl (by norm_num)

/-- Counterexample to C1 as stated: on a diff whose target file has a
post-image line 4, the reversed range `"5-3"` with the default context width
1 returns a one-line snippet (line 4 lies in the context window `[4, 4]`),
not `none`. -/
theorem c1_counterexample :
    extract_code_snippet exWindow "foo.py" "5-3" 1 = some ("  4: d") ∧
      extract_code_snippet exWindow "foo.py" "5-3" 1 ≠ none := by
  refine ⟨rfl, ?_⟩
  decide

/-- One extractor step preserves sortedness of the recorded line numbers and
their strict bound by the counter, provided the per-line hunk check holds. -/
theorem extractStep_sorted_inv (fp : String) (s e ctx : Int)
    (st : ExtractState) (l : String)
    (hok : hunkStepOK st l = true)
    (h1 : (st.collected.map Prod.fst).Pairwise (· < ·))
    (h2 : ∀ p ∈ st.collected, p.1 < st.current_new_line) :
    ((extractStep fp s e ctx st l).collected.map Prod.fst).Pairwise (· < ·) ∧
      ∀ p ∈ (extractStep fp s e ctx st l).collected,
        p.1 < (extractStep fp s e ctx st l).current_new_line := by
  cases hd : matchDiffHeader l with
  | some pq =>
      obtain ⟨g1, g2⟩ := pq
      simp only [extractStep, hd]
      exact ⟨h1, h2⟩
  | none =>
      rw [hunkStepOK, hd] at hok
      cases htgt : st.in_target_file with
      | false =>
          simp only [extractStep, hd, htgt, Bool.false_eq_true, if_false]
          exact ⟨h1, h2⟩
      | true =>
          simp only [htgt, if_true] at hok
          cases hh : matchHunkHeader l with
          | some onn =>
              obtain ⟨o, n⟩ := onn
              rw [hh, decide_eq_true_eq] at hok
              simp only [extractStep, hd, htgt, hh, if_true]
              refine ⟨h1, ?_⟩
              intro p hp
              exact lt_of_lt_of_le (h2 p hp) hok
          | none =>
              simp only [extractStep, hd, htgt, hh, if_true]
              by_cases hemp : l = ""
              · simp only [if_pos hemp]
                exact ⟨h1, h2⟩
              · simp only [if_neg hemp]
                by_cases hmin : pyFirstChar l = '-'
                · simp only [if_pos hmin]
                  exact ⟨h1, h2⟩
                · simp only [if_neg hmin]
                  by_cases hsp : pyFirstChar l = ' ' ∨ pyFirstChar l = '+'
                  · simp only [if_pos hsp]
                    by_cases hpos : 0 < st.current_new_line
                    · simp only [if_pos hpos]
                      by_cases hwin :
                          s - ctx ≤ st.current_new_line ∧
                            st.current_new_line ≤ e + ctx
                      · simp only [if_pos hwin]
                        constructor
                        · rw [List.map_append]
                          refine List.pairwise_append.mpr
                            ⟨h1, List.pairwise_singleton _ _, ?_⟩
                          intro x hx y hy
                          simp only [List.map_cons, List.map_nil,
                            List.mem_singleton] at hy
                          subst hy
                          obtain ⟨p, hp, rfl⟩ := List.mem_map.mp hx
                          exact h2 p hp
                        · intro p hp
                          rcases List.mem_append.mp hp with h | h
                          · exact lt_trans (h2 p h) (lt_add_one _)
                          · rw [List.mem_singleton] at h
                            subst h
                            exact lt_add_one _
                      · simp only [if_neg hwin]
                        exact ⟨h1, fun p hp => lt_trans (h2 p hp) (lt_add_one _)⟩
                    · simp only [if_neg hpos]
                      exact ⟨h1, h2⟩
                  · simp only [if_neg hsp]
                    exact ⟨h1, h2⟩

/-- Folding the extractor over lines that pass `hunkStartsMonotone` keeps
the recorded line numbers strictly sorted. -/
theorem extractFold_sorted (fp : String) (s e ctx : Int) (lines : List String) :
    ∀ st : ExtractState,
      hunkStartsMonotone fp s e ctx st lines = true →
      (st.collected.map Prod.fst).Pairwise (· < ·) →
      (∀ p ∈ st.collected, p.1 < st.current_new_line) →
      ((lines.foldl (extractStep fp s e ctx) st).collected.map
          Prod.fst).Pairwise (· < ·) := by
  induction lines with
  | nil => intro st _ h1 _; exact h1
  | cons l ls ih =>
      intro st hmono h1 h2
      rw [hunkStartsMonotone, Bool.and_eq_true] at hmono
      obtain ⟨hok, hrest⟩ := hmono
      obtain ⟨k1, k2⟩ := extractStep_sorted_inv fp s e ctx st l hok h1 h2
      rw [List.foldl_cons]
      exact ih (extractStep fp s e ctx st l) hrest k1 k2

/-- C7 (amended): the extractor records lines in scan order; whenever every
hunk header of the target file starts its new-line counter at or above the
value already reached (true of well-formed single-pass diffs), the recorded
lines' new-file numbers are strictly ascending.  Repeated or overlapping
sections can break the order, which the code never re-sorts. -/
theorem c7_sorted_when_monotone (raw fp : String) (s e ctx : Int)
    (h : hunkStartsMonotone fp s e ctx initExtractState (pySplitLines raw) = true) :
    ((extractScan (pySplitLines raw) fp s e ctx).collected.map
        Prod.fst).Pairwise (· < ·) := by
  unfold extractScan
  refine extractFold_sorted fp s e ctx (pySplitLines raw) initExtractState h ?_ ?_
  · simp [initExtractState]
  · intro p hp
    simp [initExtractState] at hp

/-- Witness for C7 on the spec's worked example, a well-formed single-hunk
diff. -/
theorem c7_sorted_when_monotone_witness :
    ((extractScan (pySplitLines exSimple) "foo.py" 2 2 1).collected.map
        Prod.fst).Pairwise (· < ·) :=
  c7_sorted_when_monotone exSimple "foo.py" 2 2 1 (by decide)

/-- Counterexample to C7 as stated: a diff with two sections for the same
file whose second hunk restarts at line 1 yields a snippet whose recorded
line numbers are `[5, 1]` — not ascending. -/
theorem c7_counterexample :
    extract_code_snippet exOverlap "foo.py" "1-5" 1 = some ("> 5: x\n> 1: y") ∧
      (extractScan (pySplitLines exOverlap) "foo.py" 1 5 1).collected.map
          Prod.fst = [5, 1] ∧
      ¬ ((extractScan (pySplitLines exOverlap) "foo.py" 1 5 1).collected.map
          Prod.fst).Pairwise (· < ·) := by
  refine ⟨rfl, rfl, ?_⟩
  rw [show (extractScan (pySplitLines exOverlap) "foo.py" 1 5 1).collected.map
      Prod.fst = [(5 : Int), 1] from rfl]
  decide

end DiffParser
